import Mathlib

/-!
Shallow embedding of the data-collection and aggregation pipeline of the
`vibe-stats` repository (source files `src/vibe_stats/aggregator.py`,
`src/vibe_stats/github/client.py`, `src/vibe_stats/github/rate_limit.py`),
together with proofs of the specified properties.

Modelling conventions:
- Python float arithmetic on latencies and timestamps is modelled by exact
  rational arithmetic (`ℚ`); Python `round(x, 1)` (round-half-to-even) is
  modelled by `pyRound1`.
- JSON payloads are modelled by records holding the fields the code reads,
  with optional fields as `Option`; the parsing of ISO date strings into
  timestamps is modelled by taking the already-parsed value as an
  `Option ℚ` argument.
- Python `dict` accumulation is modelled by association lists that keep
  insertion order (first occurrence fixes the position, later updates keep
  it), matching CPython dict semantics.
- `list.sort(key=..., reverse=True)` is modelled by a stable merge sort
  with the reversed (descending) comparison, which yields the same list.
-/

/-- Round-half-to-even to the nearest integer, as Python `round` behaves on
exactly representable values. -/
def rhe (q : ℚ) : ℤ :=
  let f : ℤ := ⌊q⌋
  if q - f < 1/2 then f
  else if (1:ℚ)/2 < q - f then f + 1
  else if Even f then f else f + 1

/-- Python `round(x, 1)` on an exact rational value. -/
def pyRound1 (q : ℚ) : ℚ := (rhe (q * 10) : ℚ) / 10

/-! ## Rate Governor — `github/rate_limit.py`, class `RateLimitMonitor` -/

/-- The mutable state of `RateLimitMonitor`: `_remaining`, `_reset_at`,
`_threshold`.  `none` models a Python `None` field. -/
structure RateLimitMonitor where
  remaining : Option ℤ
  resetAt : Option ℚ
  threshold : ℤ

/-- `RateLimitMonitor.__init__` with the default `threshold=10`:
both signals start unknown. -/
def RateLimitMonitor.init : RateLimitMonitor :=
  { remaining := none, resetAt := none, threshold := 10 }

/-- `RateLimitMonitor.wait_if_needed`, returning `some d` when the caller is
suspended for `d` seconds and `none` when it is not suspended.  `now` is the
value of `time.time()` at the call. -/
def RateLimitMonitor.waitIfNeeded (m : RateLimitMonitor) (now : ℚ) : Option ℚ :=
  match m.remaining, m.resetAt with
  | some r, some t =>
    if r ≤ m.threshold then
      let waitSeconds := max 0 (t - now) + 1
      if 0 < waitSeconds then some (min waitSeconds 3600) else none
    else none
  | _, _ => none

/-! ## Pagination — `github/client.py`, `GitHubClient._paginate` -/

/-- The JSON body of one page: `response.json()` is either a list (the items
are concatenated) or some other JSON value (wrapped as a single item). -/
inductive PageBody where
  | jsonList (items : List Nat)
  | jsonOther (item : Nat)
deriving DecidableEq

/-- One fetched page: its JSON body and whether its `Link` header carries a
segment tagged `rel="next"`. -/
structure Page where
  body : PageBody
  hasNext : Bool
deriving DecidableEq

/-- The items the loop body appends for one page: `results.extend(data)` for
a list, `results.append(data)` otherwise. -/
def pageItems (p : Page) : List Nat :=
  match p.body with
  | .jsonList items => items
  | .jsonOther item => [item]

/-- `GitHubClient._paginate` run against a server that answers the sequence
of successive `next` fetches with the given chain of pages: returns the
concatenated items and the number of pages fetched.  The `[]` case models a
server with no page to serve and is never reached in the scenarios below,
because the loop stops at the first page with no next link. -/
def paginate : List Page → List Nat × Nat
  | [] => ([], 0)
  | p :: rest =>
    if p.hasNext then
      let tail := paginate rest
      (pageItems p ++ tail.1, tail.2 + 1)
    else (pageItems p, 1)

/-! ## Contributor weekly stats payload — `/stats/contributors` items -/

/-- One weekly bucket of a contributor-stats record: week-start Unix
timestamp `w` and the `a`/`d`/`c` counts (`w.get("a", 0)` defaults are
folded into the record). -/
structure Week where
  w : ℤ
  a : ℕ
  d : ℕ
  c : ℕ
deriving DecidableEq

/-- One raw contributor-stats record.  `author = none` models a record
whose `author` field is null/absent; otherwise it holds the author login
(`author.get("login", "unknown")` with the default already applied). -/
structure RawContributor where
  author : Option String
  weeks : List Week
deriving DecidableEq

/-! ## Contributor-stats fetch — `GitHubClient.get_contributor_stats` -/

/-- The outcome of one `_get` on `/stats/contributors`: an HTTP error raised
by `raise_for_status` (carrying the status code), a 204, a 202, or a
successful response whose JSON body is a list or some other JSON value. -/
inductive StatsResp where
  | httpErr (code : ℕ)
  | s204
  | s202
  | okList (items : List RawContributor)
  | okOther
deriving DecidableEq

/-- What one run of `get_contributor_stats` did: the returned value (or the
re-raised status code), the backoff sleeps performed in order, and the value
written to the cache, if any. -/
structure FetchTrace where
  outcome : Except ℕ (List RawContributor)
  sleeps : List ℕ
  cacheWrite : Option (List RawContributor)

/-- `delay = min(2 ** (attempt + 1), 30)`. -/
def backoffDelay (attempt : ℕ) : ℕ := min (2 ^ (attempt + 1)) 30

/-- The `for attempt in range(retries)` loop of `get_contributor_stats`,
started at `attempt`; `script k` is the response the server gives to the
fetch made on attempt `k`.  The fall-through `return []` after the loop is
the `attempt ≥ retries` case. -/
def statsLoop (script : ℕ → StatsResp) (retries attempt : ℕ) : FetchTrace :=
  if _h : attempt < retries then
    match script attempt with
    | .httpErr code =>
      if code = 202 ∧ attempt < retries - 1 then
        let t := statsLoop script retries (attempt + 1)
        { t with sleeps := backoffDelay attempt :: t.sleeps }
      else { outcome := .error code, sleeps := [], cacheWrite := none }
    | .s204 => { outcome := .ok [], sleeps := [], cacheWrite := none }
    | .s202 =>
      if attempt < retries - 1 then
        let t := statsLoop script retries (attempt + 1)
        { t with sleeps := backoffDelay attempt :: t.sleeps }
      else { outcome := .ok [], sleeps := [], cacheWrite := none }
    | .okList items =>
      { outcome := .ok items, sleeps := [],
        cacheWrite := if items ≠ [] then some items else none }
    | .okOther =>
      -- `data if isinstance(data, list) else []`; an empty result is not cached
      { outcome := .ok [], sleeps := [], cacheWrite := none }
  else { outcome := .ok [], sleeps := [], cacheWrite := none }
termination_by retries - attempt

/-- `get_contributor_stats` itself: a cache hit returns the cached value
with no fetch; otherwise the retry loop runs from attempt 0. -/
def getContributorStats (cached : Option (List RawContributor))
    (script : ℕ → StatsResp) (retries : ℕ) : FetchTrace :=
  match cached with
  | some v => { outcome := .ok v, sleeps := [], cacheWrite := none }
  | none => statsLoop script retries 0

/-! ## Commit pattern analysis — `aggregator.py`, `_analyze_commit_patterns` -/

/-- One commit as read by `_analyze_commit_patterns`:
`commit.get("commit", {}).get("message", "")` with all defaults applied.
The author-date temporal histograms are not referenced by the verified
properties and are omitted from the embedding. -/
structure Commit where
  message : String
deriving DecidableEq

/-- `_CONVENTIONAL_TYPES`. -/
def conventionalTypes : List String :=
  ["feat", "fix", "refactor", "docs", "test", "chore", "style", "ci"]

/-- A word character of the regex class `\w` (the messages in scope are
ASCII; `_` included). -/
def isWordChar (c : Char) : Bool := c.isAlphanum || c = '_'

/-- The regex match `re.match(r"^(\w+)[\(:\!]", msg)`: a maximal nonempty
run of word characters at the start of the message, followed immediately by
one of `(`, `:`, `!`; returns the lowercased captured word. -/
def parseCommitType (msg : String) : Option String :=
  let chars := msg.toList
  let word := chars.takeWhile isWordChar
  match chars.drop word.length with
  | d :: _ =>
    if word ≠ [] ∧ (d = '(' ∨ d = ':' ∨ d = '!') then
      some (String.mk (word.map Char.toLower))
    else none
  | [] => none

/-- The bucket one message is counted into: the parsed type when it is one
of the conventional types, else `"other"` (also `"other"` when the pattern
does not match at all). -/
def classifyCommit (msg : String) : String :=
  match parseCommitType msg with
  | some t => if t ∈ conventionalTypes then t else "other"
  | none => "other"

/-- The per-type counters of `CommitPatternStats` (temporal histograms
omitted, see `Commit`). -/
structure CommitPatternStats where
  feat : ℕ
  fix : ℕ
  refactor : ℕ
  docs : ℕ
  tst : ℕ
  chore : ℕ
  style : ℕ
  ci : ℕ
  other : ℕ
  total : ℕ
deriving DecidableEq

/-- How many commits fall in bucket `t`. -/
def countBucket (t : String) (commits : List Commit) : ℕ :=
  (commits.filter (fun cm => classifyCommit cm.message = t)).length

/-- `_analyze_commit_patterns`: each commit increments exactly the counter
of its bucket; `total = len(commits)`. -/
def analyzeCommitPatterns (commits : List Commit) : CommitPatternStats :=
  { feat := countBucket "feat" commits
    fix := countBucket "fix" commits
    refactor := countBucket "refactor" commits
    docs := countBucket "docs" commits
    tst := countBucket "test" commits
    chore := countBucket "chore" commits
    style := countBucket "style" commits
    ci := countBucket "ci" commits
    other := countBucket "other" commits
    total := commits.length }

/-! ## PR insight analysis — `aggregator.py`, `_analyze_pr_insights` -/

/-- An ordered string-keyed counter modelling a Python `dict` of counts:
an existing key is bumped in place, a new key is appended.  Used for PR
author counts and the org-level author/reporter/label merges. -/
def bumpCount (k : String) (n : ℕ) : List (String × ℕ) → List (String × ℕ)
  | [] => [(k, n)]
  | (k0, v) :: rest =>
    if k0 = k then (k0, v + n) :: rest else (k0, v) :: bumpCount k n rest

/-- One pull request as read by `_analyze_pr_insights`.  The ISO timestamp
strings are modelled post-parse: `none` stands for an absent/empty (or
unparseable) `created_at`/`merged_at`/`closed_at`, `some t` for the parsed
epoch seconds. -/
structure PRData where
  state : String
  draft : Bool
  authorLogin : Option String
  createdAt : Option ℚ
  mergedAt : Option ℚ
  closedAt : Option ℚ

/-- The merge-latency samples: for each PR with a parsed `created_at` and a
`merged_at`, `(merged_at - created_at)` in hours, discarded if negative. -/
def mergeHoursOf (prs : List PRData) : List ℚ :=
  prs.filterMap fun p =>
    match p.createdAt, p.mergedAt with
    | some cr, some mg =>
      let h := (mg - cr) / 3600
      if 0 ≤ h then some h else none
    | _, _ => none

/-- The close-latency samples, taken only from PRs that are closed but not
merged. -/
def closeHoursOf (prs : List PRData) : List ℚ :=
  prs.filterMap fun p =>
    match p.mergedAt with
    | some _ => none
    | none =>
      match p.createdAt, p.closedAt with
      | some cr, some cl =>
        let h := (cl - cr) / 3600
        if 0 ≤ h then some h else none
      | _, _ => none

/-- Average of a latency sample list, rounded to one decimal; `none` for an
empty list. -/
def avgHours (hs : List ℚ) : Option ℚ :=
  if hs = [] then none else some (pyRound1 (hs.sum / hs.length))

/-- Median latency: sort ascending, then the standard even/odd
split-and-average rule, rounded to one decimal. -/
def medianHours (hs : List ℚ) : Option ℚ :=
  if hs = [] then none
  else
    let s := hs.mergeSort (fun x y => decide (x ≤ y))
    let mid := s.length / 2
    some (pyRound1 (if s.length % 2 = 0 then (s.getD mid 0 + s.getD (mid - 1) 0) / 2
      else s.getD mid 0))

/-- The author-count dictionary built from PRs with a nonempty
`user.login`, in insertion order. -/
def authorCounts (prs : List PRData) : List (String × ℕ) :=
  prs.foldl
    (fun acc p =>
      match p.authorLogin with
      | some login => bumpCount login 1 acc
      | none => acc)
    []

/-- Descending stable sort of `(name, count)` pairs by count, truncated to
the top 10 — `sorted(xs, key=lambda x: x[1], reverse=True)[:10]`. -/
def topTen (xs : List (String × ℕ)) : List (String × ℕ) :=
  (xs.mergeSort (fun x y => decide (y.2 ≤ x.2))).take 10

/-- The `PRInsights` record. -/
structure PRInsights where
  totalAnalyzed : ℕ
  avgMergeHours : Option ℚ
  medianMergeHours : Option ℚ
  avgCloseHours : Option ℚ
  draftCount : ℕ
  topAuthors : List (String × ℕ)

/-- `_analyze_pr_insights`. -/
def analyzePrInsights (prs : List PRData) : PRInsights :=
  { totalAnalyzed := prs.length
    avgMergeHours := avgHours (mergeHoursOf prs)
    medianMergeHours := medianHours (mergeHoursOf prs)
    avgCloseHours := avgHours (closeHoursOf prs)
    draftCount := (prs.filter (fun p => p.draft)).length
    topAuthors := topTen (authorCounts prs) }

/-! ## Org-level PR insight merge — `aggregate_org_report`, lines 594–632 -/

/-- The `(avg, weight)` pairs the merge collects for the average-merge
recomputation: for each repo insight with a non-null average, the pair
`(avg_merge_hours, total_analyzed)`. -/
def mergeWeightedOf (all : List PRInsights) : List (ℚ × ℕ) :=
  all.filterMap fun pi => pi.avgMergeHours.map (fun h => (h, pi.totalAnalyzed))

/-- Likewise for the close average. -/
def closeWeightedOf (all : List PRInsights) : List (ℚ × ℕ) :=
  all.filterMap fun pi => pi.avgCloseHours.map (fun h => (h, pi.totalAnalyzed))

/-- The weighted mean `round(Σ h·w / Σ w, 1)`, or `none` when the weight
total is zero. -/
def weightedAvg (hw : List (ℚ × ℕ)) : Option ℚ :=
  let totalW := (hw.map (fun x => x.2)).sum
  if 0 < totalW then some (pyRound1 ((hw.map (fun x => x.1 * (x.2 : ℚ))).sum / totalW))
  else none

/-- The `all_pr` merge of `aggregate_org_report`: `none` when no repo
carried a PR insight record, else sums, the weighted averages, and the
merged top authors; the org-level median is left null. -/
def mergePrInsights (all : List PRInsights) : Option PRInsights :=
  if all.isEmpty then none
  else
    some
      { totalAnalyzed := (all.map (fun pi => pi.totalAnalyzed)).sum
        avgMergeHours := weightedAvg (mergeWeightedOf all)
        medianMergeHours := none
        avgCloseHours := weightedAvg (closeWeightedOf all)
        draftCount := (all.map (fun pi => pi.draftCount)).sum
        topAuthors :=
          topTen (all.foldl
            (fun acc pi => pi.topAuthors.foldl (fun a kv => bumpCount kv.1 kv.2 a) acc)
            []) }

/-! ## Week filtering — `_collect_repo_stats`, lines 388–396 -/

/-- The two `continue` conditions of the week loop: a week (7-day span
starting at `wk.w`) is dropped when `week_start + 7*86400 <= since_ts` or
`week_start > until_ts`; an unknown bound never drops.  `sinceTs`/`untilTs`
are the parsed window bounds (`none` when absent or unparseable). -/
def weekExcluded (sinceTs untilTs : Option ℚ) (wk : Week) : Bool :=
  (match sinceTs with
   | some s => decide ((wk.w : ℚ) + 7 * 86400 ≤ s)
   | none => false) ||
  (match untilTs with
   | some u => decide (u < (wk.w : ℚ))
   | none => false)

/-- `filtered_weeks`: the weeks surviving both window checks. -/
def filterWeeks (sinceTs untilTs : Option ℚ) (weeks : List Week) : List Week :=
  weeks.filter (fun wk => ! weekExcluded sinceTs untilTs wk)

/-- A per-repo (or org-level) contributor record. -/
structure ContributorStats where
  username : String
  commits : ℕ
  additions : ℕ
  deletions : ℕ
deriving DecidableEq

/-- The loop state of the contributor reduction: the list built so far and
the running `total_additions` / `total_deletions`. -/
structure ContribAcc where
  contributors : List ContributorStats
  totalAdditions : ℕ
  totalDeletions : ℕ
deriving DecidableEq

/-- One iteration of `for c in raw_contributors` (lines 384–411): skip a
record with no author; filter its weeks to the window; sum the `a`/`d`/`c`
fields; skip entirely when all three sums are zero; otherwise add the sums
to the running totals and append the contributor record. -/
def contribStep (sinceTs untilTs : Option ℚ) (acc : ContribAcc) (rc : RawContributor) :
    ContribAcc :=
  match rc.author with
  | none => acc
  | some login =>
    let fw := filterWeeks sinceTs untilTs rc.weeks
    let additions := (fw.map (fun wk => wk.a)).sum
    let deletions := (fw.map (fun wk => wk.d)).sum
    let commits := (fw.map (fun wk => wk.c)).sum
    if commits = 0 ∧ additions = 0 ∧ deletions = 0 then acc
    else
      { contributors := acc.contributors ++
          [{ username := login, commits := commits, additions := additions,
             deletions := deletions }]
        totalAdditions := acc.totalAdditions + additions
        totalDeletions := acc.totalDeletions + deletions }

/-- The whole contributor reduction: the loop over `raw_contributors`
followed by `contributors.sort(key=lambda x: x.commits, reverse=True)`. -/
def collectContributors (sinceTs untilTs : Option ℚ) (raw : List RawContributor) :
    ContribAcc :=
  let acc := raw.foldl (contribStep sinceTs untilTs) ⟨[], 0, 0⟩
  { acc with
    contributors := acc.contributors.mergeSort (fun x y => decide (y.commits ≤ x.commits)) }

/-! ## Languages — `_collect_repo_stats`, lines 354–364 -/

/-- A language breakdown entry. -/
structure LanguageStats where
  language : String
  bytes : ℕ
  percentage : ℚ
deriving DecidableEq

/-- The per-repo language list: empty payload yields an empty list; else the
entries sorted descending by bytes, each with
`round(b / total_bytes * 100, 1)` (0 when the total is 0). -/
def buildLanguages (langBytes : List (String × ℕ)) : List LanguageStats :=
  if langBytes.isEmpty then []
  else
    let total := (langBytes.map (fun x => x.2)).sum
    (langBytes.mergeSort (fun x y => decide (y.2 ≤ x.2))).map fun lb =>
      { language := lb.1, bytes := lb.2,
        percentage := if total ≠ 0 then pyRound1 ((lb.2 : ℚ) / total * 100) else 0 }

/-! ## Calendar dates — `datetime.fromtimestamp(...).strftime("%Y-%m-%d")`
and `datetime.strptime(..., "%Y-%m-%d")` used by the trend analyses. -/

/-- Proleptic-Gregorian civil date from a day count relative to 1970-01-01
(standard days-from-civil inverse, floor divisions throughout). -/
def civilFromDays (z0 : ℤ) : ℤ × ℤ × ℤ :=
  let z := z0 + 719468
  let era := z.fdiv 146097
  let doe := z - era * 146097
  let yoe := (doe - doe.fdiv 1460 + doe.fdiv 36524 - doe.fdiv 146096).fdiv 365
  let doy := doe - (365 * yoe + yoe.fdiv 4 - yoe.fdiv 100)
  let mp := (5 * doy + 2).fdiv 153
  let d := doy - (153 * mp + 2).fdiv 5 + 1
  let m := mp + (if mp < 10 then 3 else -9)
  (yoe + era * 400 + (if m ≤ 2 then 1 else 0), m, d)

/-- Day count relative to 1970-01-01 of a civil date. -/
def daysFromCivil (y m d : ℤ) : ℤ :=
  let y1 := if m ≤ 2 then y - 1 else y
  let era := y1.fdiv 400
  let yoe := y1 - era * 400
  let doy := (153 * (m + (if 2 < m then -3 else 9)) + 2).fdiv 5 + d - 1
  let doe := yoe * 365 + yoe.fdiv 4 - yoe.fdiv 100 + doy
  era * 146097 + doe - 719468

/-- Zero-pad to two digits (month/day fields of `%Y-%m-%d`). -/
def pad2 (n : ℤ) : String := if n < 10 then "0" ++ toString n else toString n

/-- Zero-pad to four digits (`%Y`). -/
def pad4 (n : ℤ) : String :=
  if n < 10 then "000" ++ toString n
  else if n < 100 then "00" ++ toString n
  else if n < 1000 then "0" ++ toString n
  else toString n

/-- `datetime.fromtimestamp(ts, tz=timezone.utc).strftime("%Y-%m-%d")`. -/
def dateStrOfTimestamp (ts : ℤ) : String :=
  let ymd := civilFromDays (ts.fdiv 86400)
  pad4 ymd.1 ++ "-" ++ pad2 ymd.2.1 ++ "-" ++ pad2 ymd.2.2

/-- Gregorian leap year. -/
def isLeap (y : ℤ) : Bool := (y % 4 = 0 ∧ y % 100 ≠ 0) ∨ y % 400 = 0

/-- Days in a month. -/
def daysInMonth (y m : ℤ) : ℤ :=
  if m = 2 then (if isLeap y then 29 else 28)
  else if m = 4 ∨ m = 6 ∨ m = 9 ∨ m = 11 then 30
  else 31

/-- `datetime.strptime(s, "%Y-%m-%d")`, as a partial parse: `none` models
the `ValueError` branch. -/
def parseDate (s : String) : Option (ℤ × ℤ × ℤ) :=
  match (s.splitOn "-").map (fun part => part.toNat?) with
  | [some y, some m, some d] =>
    if 1 ≤ m ∧ m ≤ 12 ∧ 1 ≤ d ∧ (d : ℤ) ≤ daysInMonth (y : ℤ) (m : ℤ) then
      some ((y : ℤ), (m : ℤ), (d : ℤ))
    else none
  | _ => none

/-! ## Contributor trend analysis — `_analyze_contributor_trends` -/

/-- A contributor activity-timeline record. -/
structure ContributorTrend where
  username : String
  firstActiveWeek : String
  lastActiveWeek : String
  activeWeeks : ℤ
  totalWeeks : ℤ
deriving DecidableEq

/-- The week-start timestamps of the weeks that survive the window filter
(the same two `continue` conditions as `weekExcluded`) and have nonzero
commits, additions, or deletions. -/
def activeWeekTimestamps (sinceTs untilTs : Option ℚ) (weeks : List Week) : List ℤ :=
  (weeks.filter fun wk =>
      ! weekExcluded sinceTs untilTs wk &&
        (decide (0 < wk.c) || decide (0 < wk.a) || decide (0 < wk.d))).map
    (fun wk => wk.w)

/-- The trend record of one raw contributor: skipped when the author is
absent or no week is active; otherwise first/last active week as calendar
dates and `total_span_weeks = max(1, (last - first) // (7*86400) + 1)`. -/
def trendOf (sinceTs untilTs : Option ℚ) (rc : RawContributor) : Option ContributorTrend :=
  match rc.author with
  | none => none
  | some login =>
    match activeWeekTimestamps sinceTs untilTs rc.weeks with
    | [] => none
    | t :: ts =>
      let firstTs := ts.foldl min t
      let lastTs := ts.foldl max t
      some
        { username := login
          firstActiveWeek := dateStrOfTimestamp firstTs
          lastActiveWeek := dateStrOfTimestamp lastTs
          activeWeeks := ((t :: ts).length : ℤ)
          totalWeeks := max 1 ((lastTs - firstTs).fdiv (7 * 86400) + 1) }

/-- `_analyze_contributor_trends`: the per-contributor records, sorted
descending by active-week count. -/
def analyzeContributorTrends (sinceTs untilTs : Option ℚ) (raw : List RawContributor) :
    List ContributorTrend :=
  (raw.filterMap (trendOf sinceTs untilTs)).mergeSort
    (fun x y => decide (y.activeWeeks ≤ x.activeWeeks))

/-! ## The RepoStats record and the rest of `_collect_repo_stats` -/

/-- Repository metadata copied from the repository-list payload
(`meta.get("stargazers_count", 0)` etc.; the fields no verified property
reads are omitted). -/
structure RepoMeta where
  stars : ℕ
  forks : ℕ
  isArchived : Bool
deriving DecidableEq

/-- PR bucket counts (lines 341–348): a PR with a truthy `merged_at` is
merged; else a PR in state `"open"` is open; anything else is in neither
bucket. -/
def countMergedPrs (prs : List PRData) : ℕ :=
  (prs.filter (fun p => p.mergedAt.isSome)).length

/-- Open PRs: not merged and `state == "open"`. -/
def countOpenPrs (prs : List PRData) : ℕ :=
  (prs.filter (fun p => p.mergedAt.isNone && decide (p.state = "open"))).length

/-- The per-repository statistics record (metadata fields no verified
property reads are omitted). -/
structure RepoStats where
  name : String
  totalCommits : ℕ
  totalAdditions : ℕ
  totalDeletions : ℕ
  openPrs : ℕ
  mergedPrs : ℕ
  openIssues : ℕ
  languages : List LanguageStats
  contributors : List ContributorStats
  stars : ℕ
  forks : ℕ
  isArchived : Bool
  commitPatterns : Option CommitPatternStats
  prInsights : Option PRInsights
  contributorTrends : List ContributorTrend

/-- `_collect_repo_stats` after the five fetches: the arguments are the
fetched payloads, already substituted with empty defaults when the
individual fetch failed (lines 321–335).  `openIssues` is `len(issues)`
(the issue payload is only counted; the issue-insight analysis is not
referenced by the verified properties and is omitted). -/
def collectRepoStats (name : String) (commits : List Commit)
    (langBytes : List (String × ℕ)) (rawContributors : List RawContributor)
    (prs : List PRData) (openIssues : ℕ) (meta : RepoMeta)
    (sinceTs untilTs : Option ℚ) : RepoStats :=
  let contribAcc := collectContributors sinceTs untilTs rawContributors
  { name := name
    totalCommits := commits.length
    totalAdditions := contribAcc.totalAdditions
    totalDeletions := contribAcc.totalDeletions
    openPrs := countOpenPrs prs
    mergedPrs := countMergedPrs prs
    openIssues := openIssues
    languages := buildLanguages langBytes
    contributors := contribAcc.contributors
    stars := meta.stars
    forks := meta.forks
    isArchived := meta.isArchived
    commitPatterns := some (analyzeCommitPatterns commits)
    prInsights := some (analyzePrInsights prs)
    contributorTrends := analyzeContributorTrends sinceTs untilTs rawContributors }

/-! ## Org Aggregator — `aggregate_org_report` -/

/-- `KNOWN_BOTS`. -/
def knownBots : List String :=
  ["dependabot", "renovate", "github-actions", "codecov", "snyk-bot",
   "greenkeeper", "dependabot-preview", "renovate-bot", "allcontributors",
   "imgbot", "stale", "mergify", "sonarcloud"]

/-- `_is_bot`. -/
def isBot (username : String) : Bool :=
  let lower := username.toLower
  lower.endsWith "[bot]" || knownBots.contains lower

/-- `_sort_key(sort_by)` applied to one contributor. -/
def sortKeyVal (sortBy : String) (c : ContributorStats) : ℕ :=
  if sortBy = "additions" then c.additions
  else if sortBy = "deletions" then c.deletions
  else if sortBy = "lines" then c.additions + c.deletions
  else c.commits

/-- One step of the `contrib_totals` dict build (lines 530–550): an existing
username gets a fresh record with summed fields at its old position; a new
username is appended with copied fields. -/
def addContrib (c : ContributorStats) : List ContributorStats → List ContributorStats
  | [] =>
    [{ username := c.username, commits := c.commits, additions := c.additions,
       deletions := c.deletions }]
  | e :: rest =>
    if e.username = c.username then
      { username := c.username, commits := e.commits + c.commits,
        additions := e.additions + c.additions,
        deletions := e.deletions + c.deletions } :: rest
    else e :: addContrib c rest

/-- `list(contrib_totals.values())`: the merged org contributor records, in
dict insertion order. -/
def mergeContributors (statsList : List RepoStats) : List ContributorStats :=
  statsList.foldl (fun acc r => r.contributors.foldl (fun a c => addContrib c a) acc) []

/-- The `lang_totals` dict (lines 516–519), in insertion order. -/
def langTotals (statsList : List RepoStats) : List (String × ℕ) :=
  statsList.foldl
    (fun acc r => r.languages.foldl (fun a lg => bumpCount lg.language lg.bytes a) acc)
    []

/-- `org_languages` (lines 520–528): the summed byte counts re-percentaged
against the new grand total, sorted descending by bytes. -/
def orgLanguages (statsList : List RepoStats) : List LanguageStats :=
  let totals := langTotals statsList
  let grand := (totals.map (fun x => x.2)).sum
  (totals.mergeSort (fun x y => decide (y.2 ≤ x.2))).map fun lb =>
    { language := lb.1, bytes := lb.2,
      percentage := if grand ≠ 0 then pyRound1 ((lb.2 : ℚ) / grand * 100) else 0 }

/-- One step of the `org_trend_map` dict build (lines 654–684): merging two
trends of the same username takes the min/max date strings, recomputes the
span from the merged range (falling back to the max of the two spans when a
date fails to parse), and caps the summed active weeks at the span. -/
def mergeTrend (t : ContributorTrend) : List ContributorTrend → List ContributorTrend
  | [] =>
    [{ username := t.username, firstActiveWeek := t.firstActiveWeek,
       lastActiveWeek := t.lastActiveWeek, activeWeeks := t.activeWeeks,
       totalWeeks := t.totalWeeks }]
  | e :: rest =>
    if e.username = t.username then
      let first := min e.firstActiveWeek t.firstActiveWeek
      let last := max e.lastActiveWeek t.lastActiveWeek
      let spanWeeks :=
        match parseDate first, parseDate last with
        | some f, some l =>
          max 1 ((daysFromCivil l.1 l.2.1 l.2.2 - daysFromCivil f.1 f.2.1 f.2.2).fdiv 7 + 1)
        | _, _ => max e.totalWeeks t.totalWeeks
      { username := t.username, firstActiveWeek := first, lastActiveWeek := last,
        activeWeeks := min (e.activeWeeks + t.activeWeeks) spanWeeks,
        totalWeeks := spanWeeks } :: rest
    else e :: mergeTrend t rest

/-- `list(org_trend_map.values())` in insertion order. -/
def orgTrendMap (statsList : List RepoStats) : List ContributorTrend :=
  statsList.foldl
    (fun acc r => r.contributorTrends.foldl (fun a t => mergeTrend t a) acc) []

/-- The organization-level report (fields no verified property reads are
omitted). -/
structure OrgReport where
  org : String
  totalRepos : ℕ
  totalCommits : ℕ
  totalAdditions : ℕ
  totalDeletions : ℕ
  totalOpenPrs : ℕ
  totalMergedPrs : ℕ
  totalOpenIssues : ℕ
  totalStars : ℕ
  totalForks : ℕ
  archivedRepos : ℕ
  languages : List LanguageStats
  contributors : List ContributorStats
  repos : List RepoStats
  failedRepos : List String
  prInsights : Option PRInsights
  contributorTrends : List ContributorTrend

/-- The aggregation phase of `aggregate_org_report` (lines 489–718), given
the per-repository collection results in request order: `(name, none)`
models a repository whose collection raised (its name goes to
`failed_repos`), `(name, some stats)` a successful collection. -/
def aggregateOrgFromResults (org : String)
    (results : List (String × Option RepoStats)) (sortBy : String)
    (excludeBots : Bool) (minCommits : ℕ) : OrgReport :=
  let statsList := results.filterMap (fun p => p.2)
  let failed := results.filterMap
    (fun p => match p.2 with | none => some p.1 | some _ => none)
  let contribs0 := mergeContributors statsList
  let contribs1 := if excludeBots then contribs0.filter (fun c => ! isBot c.username)
    else contribs0
  let contribs2 := if 0 < minCommits then contribs1.filter (fun c => minCommits ≤ c.commits)
    else contribs1
  let orgContributors := contribs2.mergeSort
    (fun x y => decide (sortKeyVal sortBy y ≤ sortKeyVal sortBy x))
  let trendMap := orgTrendMap statsList
  let trendMap2 :=
    if excludeBots || decide (0 < minCommits) then
      trendMap.filter (fun t => orgContributors.any (fun c => c.username = t.username))
    else trendMap
  { org := org
    totalRepos := statsList.length
    totalCommits := (statsList.map (fun r => r.totalCommits)).sum
    totalAdditions := (statsList.map (fun r => r.totalAdditions)).sum
    totalDeletions := (statsList.map (fun r => r.totalDeletions)).sum
    totalOpenPrs := (statsList.map (fun r => r.openPrs)).sum
    totalMergedPrs := (statsList.map (fun r => r.mergedPrs)).sum
    totalOpenIssues := (statsList.map (fun r => r.openIssues)).sum
    totalStars := (statsList.map (fun r => r.stars)).sum
    totalForks := (statsList.map (fun r => r.forks)).sum
    archivedRepos := (statsList.filter (fun r => r.isArchived)).length
    languages := orgLanguages statsList
    contributors := orgContributors
    repos := statsList
    failedRepos := failed
    prInsights := mergePrInsights (statsList.filterMap (fun r => r.prInsights))
    contributorTrends := trendMap2.mergeSort
      (fun x y => decide (y.activeWeeks ≤ x.activeWeeks)) }

/-- All of `aggregate_org_report` (lines 454–718): repository-set resolution
(singleton set in single-repo mode, else the listed names), the exclusion
filter (applied only when the exclusion list is nonempty, after single-repo
resolution), collection of each surviving repository (`collect name = none`
models a collection that raised), then aggregation. -/
def aggregateOrgReport (collect : String → Option RepoStats) (org : String)
    (listedRepos : List String) (repo : Option String)
    (excludeRepos : List String) (sortBy : String) (excludeBots : Bool)
    (minCommits : ℕ) : OrgReport :=
  let repos := match repo with
    | some r => [r]
    | none => listedRepos
  let repos2 := if excludeRepos.isEmpty then repos
    else repos.filter (fun n => ! excludeRepos.contains n)
  aggregateOrgFromResults org (repos2.map (fun n => (n, collect n))) sortBy
    excludeBots minCommits

/-! ## Helper characterizations and concrete fixtures used by the proofs -/

/-- The contributor record one raw record contributes (or `none` when it is
skipped): the per-iteration effect of `contribStep` on the list, used to
characterize the loop. -/
def contribRecordOf (sinceTs untilTs : Option ℚ) (rc : RawContributor) :
    Option ContributorStats :=
  match rc.author with
  | none => none
  | some login =>
    let fw := filterWeeks sinceTs untilTs rc.weeks
    let additions := (fw.map (fun wk => wk.a)).sum
    let deletions := (fw.map (fun wk => wk.d)).sum
    let commits := (fw.map (fun wk => wk.c)).sum
    if commits = 0 ∧ additions = 0 ∧ deletions = 0 then none
    else
      some { username := login, commits := commits, additions := additions,
             deletions := deletions }

/-- Lookup of the first record with a given username (dict lookup on the
insertion-ordered list). -/
def findContrib (u : String) : List ContributorStats → Option ContributorStats
  | [] => none
  | e :: rest => if e.username = u then some e else findContrib u rest

/-- Modelled from the claim's words, for comparison with the code: the
org-level average merge latency as the latency-weighted mean
`Σ(avg_i × n_i) / Σ n_i` where `n_i` is repo i's count of VALID
merge-latency samples (not its count of analyzed PRs). -/
def claimSampleWeightedAvgMerge (repoPrs : List (List PRData)) : Option ℚ :=
  let pairs := repoPrs.filterMap fun prs =>
    match avgHours (mergeHoursOf prs) with
    | some a => some (a, (mergeHoursOf prs).length)
    | none => none
  let totalN := (pairs.map (fun x => x.2)).sum
  if 0 < totalN then
    some (pyRound1 ((pairs.map (fun x => x.1 * (x.2 : ℚ))).sum / totalN))
  else none

/-- The `(avg_merge_hours, total_analyzed)` weight pairs, written directly
over the raw per-repo PR lists (used to state the amended weighted-mean
property). -/
def codeWeightPairsMerge (repoPrs : List (List PRData)) : List (ℚ × ℕ) :=
  repoPrs.filterMap fun prs =>
    match avgHours (mergeHoursOf prs) with
    | some a => some (a, prs.length)
    | none => none

/-- Likewise for the close latency. -/
def codeWeightPairsClose (repoPrs : List (List PRData)) : List (ℚ × ℕ) :=
  repoPrs.filterMap fun prs =>
    match avgHours (closeHoursOf prs) with
    | some a => some (a, prs.length)
    | none => none

/-- Fixture: a PR created at epoch 0 and merged 10 hours later. -/
def prMergedTenHours : PRData :=
  { state := "closed", draft := false, authorLogin := none,
    createdAt := some 0, mergedAt := some 36000, closedAt := none }

/-- Fixture: a PR created at epoch 0, still open (no merge, no close): it is
analyzed but contributes no merge-latency sample. -/
def prStillOpen : PRData :=
  { state := "open", draft := false, authorLogin := none,
    createdAt := some 0, mergedAt := none, closedAt := none }

/-- Fixture: a PR created at epoch 0 and merged 20 hours later. -/
def prMergedTwentyHours : PRData :=
  { state := "closed", draft := false, authorLogin := none,
    createdAt := some 0, mergedAt := some 72000, closedAt := none }

/-- Fixture builder: a RepoStats record carrying only a name, commit count
and contributor list (all other fields empty/zero), for concrete witnesses
of the org-level merge properties. -/
def plainRepo (nm : String) (commits : ℕ) (cs : List ContributorStats) : RepoStats :=
  { name := nm, totalCommits := commits, totalAdditions := 0, totalDeletions := 0,
    openPrs := 0, mergedPrs := 0, openIssues := 0, languages := [],
    contributors := cs, stars := 0, forks := 0, isArchived := false,
    commitPatterns := none, prInsights := none, contributorTrends := [] }

/-- Fixture: the retry script that answers 202 on attempt 0 and 204 on
every later attempt. -/
def scriptOnce202 : ℕ → StatsResp :=
  fun k => if k = 0 then StatsResp.s202 else StatsResp.s204

/-- Fixture: the three-page chain of the pagination scenario — the first
two pages carry a next link, the third does not (and carries a non-list
payload, exercising the single-item wrap). -/
def threePageChain : List Page :=
  [{ body := PageBody.jsonList [1, 2], hasNext := true },
   { body := PageBody.jsonList [3], hasNext := true },
   { body := PageBody.jsonOther 4, hasNext := false }]

/-- Fixture: a raw contributor with one in-window active week (5 commits,
7 additions, 3 deletions at week start 1000000). -/
def rawAlice : RawContributor :=
  { author := some "alice", weeks := [{ w := 1000000, a := 7, d := 3, c := 5 }] }

/-- Fixture: a raw contributor whose only week is all-zero, so the filtered
sums are all zero and the record must be skipped. -/
def rawZed : RawContributor :=
  { author := some "zed", weeks := [{ w := 1000000, a := 0, d := 0, c := 0 }] }

/-- Fixture: a raw contributor with two in-window active weeks (2 then 9
commits). -/
def rawBob : RawContributor :=
  { author := some "bob",
    weeks := [{ w := 1000000, a := 1, d := 0, c := 2 },
              { w := 1604800, a := 0, d := 2, c := 9 }] }

/-! ## Shared helper lemmas -/

/-- Every message classifies into one of the eight conventional types or
`"other"`. -/
theorem classifyCommit_cases (msg : String) :
    classifyCommit msg = "feat" ∨ classifyCommit msg = "fix" ∨
    classifyCommit msg = "refactor" ∨ classifyCommit msg = "docs" ∨
    classifyCommit msg = "test" ∨ classifyCommit msg = "chore" ∨
    classifyCommit msg = "style" ∨ classifyCommit msg = "ci" ∨
    classifyCommit msg = "other" := by
  unfold classifyCommit
  cases h : parseCommitType msg with
  | none => simp
  | some t =>
    by_cases ht : t ∈ conventionalTypes
    · simp only [ht, if_true]
      simp only [conventionalTypes, List.mem_cons, List.not_mem_nil, or_false] at ht
      tauto
    · simp [ht]

/-- Unfolding one commit out of a bucket count. -/
theorem countBucket_cons (t : String) (cm : Commit) (l : List Commit) :
    countBucket t (cm :: l) =
      (if classifyCommit cm.message = t then 1 else 0) + countBucket t l := by
  by_cases h : classifyCommit cm.message = t <;>
    simp [countBucket, List.filter_cons, h, Nat.add_comm]

/-- The nine bucket counts of a commit list sum to its length. -/
theorem sum_countBuckets (l : List Commit) :
    countBucket "feat" l + countBucket "fix" l + countBucket "refactor" l +
    countBucket "docs" l + countBucket "test" l + countBucket "chore" l +
    countBucket "style" l + countBucket "ci" l + countBucket "other" l = l.length := by
  induction l with
  | nil => simp [countBucket]
  | cons cm rest ih =>
    rcases classifyCommit_cases cm.message with h|h|h|h|h|h|h|h|h <;>
      simp [countBucket_cons, h] <;> omega

/-! ## Claim theorems -/

/-- Claim C6: `waitIfNeeded` suspends the caller if and only if the
remaining-calls signal is known and at or below the threshold (default 10)
and the reset-timestamp signal is known; when it suspends, the duration is
`max(0, reset_time - now) + 1` seconds, capped at 3600 seconds; when either
signal is unknown it does not suspend.  (It never raises: the embedding is
a total function.) -/
theorem rate_governor_suspension (m : RateLimitMonitor) (now : ℚ) :
    ((m.waitIfNeeded now).isSome ↔
      ∃ r t, m.remaining = some r ∧ r ≤ m.threshold ∧ m.resetAt = some t) ∧
    (∀ r t, m.remaining = some r → r ≤ m.threshold → m.resetAt = some t →
      m.waitIfNeeded now = some (min (max 0 (t - now) + 1) 3600)) ∧
    ((m.remaining = none ∨ m.resetAt = none) → m.waitIfNeeded now = none) ∧
    RateLimitMonitor.init.threshold = 10 := by
  have hpos : ∀ t : ℚ, (0 : ℚ) < max 0 (t - now) + 1 := by
    intro t
    have : (0 : ℚ) ≤ max 0 (t - now) := le_max_left _ _
    linarith
  refine ⟨?_, ?_, ?_, rfl⟩
  · unfold RateLimitMonitor.waitIfNeeded
    rcases hr : m.remaining with _ | r <;> rcases ht : m.resetAt with _ | t <;> simp
    by_cases hle : r ≤ m.threshold
    · simp [hle, hpos t]
    · simp [hle]
  · intro r t hr hle ht
    unfold RateLimitMonitor.waitIfNeeded
    rw [hr, ht]
    simp [hle, hpos t]
  · intro h
    unfold RateLimitMonitor.waitIfNeeded
    rcases h with h | h <;> rw [h] <;> rcases hx : m.remaining <;> rcases hy : m.resetAt <;>
      simp_all

/-- Witness for C6: with 5 remaining calls (threshold 10), reset at 100 and
now = 50, the monitor suspends for `min(max(0, 100-50)+1, 3600) = 51`
seconds. -/
theorem rate_governor_suspension_witness :
    RateLimitMonitor.waitIfNeeded { remaining := some 5, resetAt := some 100, threshold := 10 } 50
      = some 51 := by
  have h := (rate_governor_suspension
    { remaining := some 5, resetAt := some 100, threshold := 10 } 50).2.1
    5 100 rfl (by norm_num) rfl
  rw [h]
  norm_num

/-- Claim C7: run against a finite chain of pages, pagination stops after
the first page that carries no next link, returns the concatenation of all
fetched page items in page order, fetches exactly (number of leading
linked pages) + 1 pages, and wraps a non-list JSON payload as a single-item
page. -/
theorem pagination_stops_at_first_no_next (l1 : List Page) (p : Page) (l2 : List Page)
    (h1 : ∀ q ∈ l1, q.hasNext = true) (h2 : p.hasNext = false) :
    paginate (l1 ++ p :: l2) = ((l1.map pageItems).flatten ++ pageItems p, l1.length + 1) ∧
    (∀ x b, pageItems { body := PageBody.jsonOther x, hasNext := b } = [x]) := by
  refine ⟨?_, fun x b => rfl⟩
  induction l1 with
  | nil => simp [paginate, h2]
  | cons q qs ih =>
    have hq : q.hasNext = true := h1 q (by simp)
    have ih2 := ih (fun r hr => h1 r (by simp [hr]))
    simp [paginate, hq, ih2]

/-- Witness for C7: the three-page chain where only the first two pages
carry the next link yields exactly three fetches and the items
`[1, 2, 3, 4]` in page order (the last item wrapped from a non-list
payload). -/
theorem pagination_stops_at_first_no_next_witness :
    paginate threePageChain = ([1, 2, 3, 4], 3) := by
  have h := (pagination_stops_at_first_no_next
    [{ body := PageBody.jsonList [1, 2], hasNext := true },
     { body := PageBody.jsonList [3], hasNext := true }]
    { body := PageBody.jsonOther 4, hasNext := false } [] (by decide) rfl).1
  exact h.trans (by decide)

/-- Claim C8: commit-pattern analysis classifies each message by its
conventional-commit prefix (a leading word followed by `(`, `:`, or `!`):
into the matching type when the word is one of
feat/fix/refactor/docs/test/chore/style/ci, else into `"other"` (also
`"other"` when no prefix matches); `"fix(auth): token expiry"` classifies
as fix, `"refactor!: redesign API"` as refactor, `"random commit message"`
as other, and the nine type counts always sum to the record's total. -/
theorem commit_pattern_classification (commits : List Commit) :
    (analyzeCommitPatterns commits).feat + (analyzeCommitPatterns commits).fix +
      (analyzeCommitPatterns commits).refactor + (analyzeCommitPatterns commits).docs +
      (analyzeCommitPatterns commits).tst + (analyzeCommitPatterns commits).chore +
      (analyzeCommitPatterns commits).style + (analyzeCommitPatterns commits).ci +
      (analyzeCommitPatterns commits).other = (analyzeCommitPatterns commits).total ∧
    (∀ msg t, parseCommitType msg = some t → t ∈ conventionalTypes →
      classifyCommit msg = t) ∧
    (∀ msg t, parseCommitType msg = some t → t ∉ conventionalTypes →
      classifyCommit msg = "other") ∧
    (∀ msg, parseCommitType msg = none → classifyCommit msg = "other") ∧
    classifyCommit "fix(auth): token expiry" = "fix" ∧
    classifyCommit "refactor!: redesign API" = "refactor" ∧
    classifyCommit "random commit message" = "other" := by
  refine ⟨?_, ?_, ?_, ?_, by decide, by decide, by decide⟩
  · simpa [analyzeCommitPatterns] using sum_countBuckets commits
  · intro msg t hp ht
    simp [classifyCommit, hp, ht]
  · intro msg t hp ht
    simp [classifyCommit, hp, ht]
  · intro msg hp
    simp [classifyCommit, hp]

/-- Witness for C8: the prefix of `"fix(auth): token expiry"` parses as the
word `fix`, which is a conventional type, so the message classifies as
`fix`. -/
theorem commit_pattern_classification_witness :
    parseCommitType "fix(auth): token expiry" = some "fix" ∧
      classifyCommit "fix(auth): token expiry" = "fix" :=
  ⟨by decide, (commit_pattern_classification []).2.1 "fix(auth): token expiry" "fix"
    (by decide) (by decide)⟩

/-- Step lemma: an HTTP error raised on an attempt that is not the last
one and carries code 202 leads to a backoff sleep and a retry; any other
raised error is re-raised. -/
theorem statsLoop_httpErr (script : ℕ → StatsResp) (retries k code : ℕ)
    (hk : k < retries) (hs : script k = .httpErr code) :
    statsLoop script retries k =
      if code = 202 ∧ k < retries - 1 then
        { statsLoop script retries (k + 1) with
          sleeps := backoffDelay k :: (statsLoop script retries (k + 1)).sleeps }
      else { outcome := .error code, sleeps := [], cacheWrite := none } := by
  rw [statsLoop]
  simp [hk, hs]

/-- Step lemma: a 204 returns an empty list immediately. -/
theorem statsLoop_204 (script : ℕ → StatsResp) (retries k : ℕ)
    (hk : k < retries) (hs : script k = .s204) :
    statsLoop script retries k =
      { outcome := .ok [], sleeps := [], cacheWrite := none } := by
  rw [statsLoop]
  simp [hk, hs]

/-- Step lemma: a 202 response retries after a backoff sleep unless this is
the last attempt, in which case it returns an empty list. -/
theorem statsLoop_202 (script : ℕ → StatsResp) (retries k : ℕ)
    (hk : k < retries) (hs : script k = .s202) :
    statsLoop script retries k =
      if k < retries - 1 then
        { statsLoop script retries (k + 1) with
          sleeps := backoffDelay k :: (statsLoop script retries (k + 1)).sleeps }
      else { outcome := .ok [], sleeps := [], cacheWrite := none } := by
  rw [statsLoop]
  simp [hk, hs]

/-- Step lemma: a successful list body is returned and cached when
nonempty. -/
theorem statsLoop_okList (script : ℕ → StatsResp) (retries k : ℕ)
    (items : List RawContributor) (hk : k < retries) (hs : script k = .okList items) :
    statsLoop script retries k =
      { outcome := .ok items, sleeps := [],
        cacheWrite := if items ≠ [] then some items else none } := by
  rw [statsLoop]
  simp [hk, hs]

/-- Step lemma: a successful non-list body is treated as empty and not
cached. -/
theorem statsLoop_okOther (script : ℕ → StatsResp) (retries k : ℕ)
    (hk : k < retries) (hs : script k = .okOther) :
    statsLoop script retries k =
      { outcome := .ok [], sleeps := [], cacheWrite := none } := by
  rw [statsLoop]
  simp [hk, hs]

/-- The cache is written only with the nonempty successfully returned
result. -/
theorem statsLoop_cache_sound (fuel : ℕ) :
    ∀ (script : ℕ → StatsResp) (retries k : ℕ), retries - k ≤ fuel →
      ∀ r, (statsLoop script retries k).cacheWrite = some r →
        r ≠ [] ∧ (statsLoop script retries k).outcome = .ok r := by
  induction fuel with
  | zero =>
    intro script retries k hle r hcw
    have hk : ¬ k < retries := by omega
    rw [statsLoop] at hcw
    simp [hk] at hcw
  | succ n ih =>
    intro script retries k hle r hcw
    by_cases hk : k < retries
    · rcases hs : script k with code | _ | _ | items | _
      · rw [statsLoop_httpErr script retries k code hk hs] at hcw ⊢
        by_cases hc : code = 202 ∧ k < retries - 1
        · simp only [hc, if_true] at hcw ⊢
          exact ih script retries (k + 1) (by omega) r hcw
        · simp [hc] at hcw
      · rw [statsLoop_204 script retries k hk hs] at hcw
        simp at hcw
      · rw [statsLoop_202 script retries k hk hs] at hcw ⊢
        by_cases hc : k < retries - 1
        · simp only [hc, if_true] at hcw ⊢
          exact ih script retries (k + 1) (by omega) r hcw
        · simp [hc] at hcw
      · rw [statsLoop_okList script retries k items hk hs] at hcw ⊢
        by_cases hi : items = []
        · simp [hi] at hcw
        · simp [hi] at hcw ⊢
          simp [← hcw, hi]
      · rw [statsLoop_okOther script retries k hk hs] at hcw
        simp at hcw
    · rw [statsLoop] at hcw
      simp [hk] at hcw

/-- Claim C5: in the contributor-stats fetch with retry budget `retries`, a
204 response returns an empty list immediately; a 202 response on attempt
`k < retries - 1` causes a retry after `min(2^(k+1), 30)` seconds; a 202 on
the final attempt returns an empty list rather than raising; a successful
response whose JSON body is not a list is treated as empty; and the cache
is populated only with successful non-empty results, never with empty
ones. -/
theorem contributor_stats_retry (script : ℕ → StatsResp) (retries k : ℕ) :
    (k < retries → script k = .s204 →
      statsLoop script retries k =
        { outcome := .ok [], sleeps := [], cacheWrite := none }) ∧
    (k < retries - 1 → script k = .s202 →
      statsLoop script retries k =
        { statsLoop script retries (k + 1) with
          sleeps := min (2 ^ (k + 1)) 30 :: (statsLoop script retries (k + 1)).sleeps }) ∧
    (0 < retries → script (retries - 1) = .s202 →
      statsLoop script retries (retries - 1) =
        { outcome := .ok [], sleeps := [], cacheWrite := none }) ∧
    (k < retries → script k = .okOther →
      statsLoop script retries k =
        { outcome := .ok [], sleeps := [], cacheWrite := none }) ∧
    (∀ r, (statsLoop script retries k).cacheWrite = some r →
      r ≠ [] ∧ (statsLoop script retries k).outcome = .ok r) ∧
    (∀ v, getContributorStats (some v) script retries
      = { outcome := .ok v, sleeps := [], cacheWrite := none }) := by
  refine ⟨?_, ?_, ?_, ?_, ?_, fun v => rfl⟩
  · intro hk hs
    exact statsLoop_204 script retries k hk hs
  · intro hk hs
    have hk2 : k < retries := by omega
    rw [statsLoop_202 script retries k hk2 hs]
    simp [hk, backoffDelay]
  · intro hr hs
    have hk2 : retries - 1 < retries := by omega
    rw [statsLoop_202 script retries (retries - 1) hk2 hs]
    simp
  · intro hk hs
    exact statsLoop_okOther script retries k hk hs
  · exact statsLoop_cache_sound (retries - k) script retries k le_rfl

/-- Witness for C5: against the script answering 202 on attempt 0 and 204
afterwards, with budget 8 the fetch sleeps `min(2^1, 30) = 2` seconds once
and then returns the empty list, writing nothing to the cache. -/
theorem contributor_stats_retry_witness :
    statsLoop scriptOnce202 8 0 =
      { outcome := .ok [], sleeps := [2], cacheWrite := none } := by
  have h2 := (contributor_stats_retry scriptOnce202 8 0).2.1 (by omega) (by decide)
  have h4 := (contributor_stats_retry scriptOnce202 8 1).1 (by omega) (by decide)
  rw [h2, h4]
  norm_num

/-- The week-window exclusion test, characterized as the claim states it. -/
theorem weekExcluded_true_iff (s u : Option ℚ) (wk : Week) :
    weekExcluded s u wk = true ↔
      ((∃ sv, s = some sv ∧ (wk.w : ℚ) + 7 * 86400 ≤ sv) ∨
       (∃ uv, u = some uv ∧ uv < (wk.w : ℚ))) := by
  rcases s with _ | sv <;> rcases u with _ | uv <;> simp [weekExcluded]

/-- One loop iteration, characterized by the record the raw contributor
contributes. -/
theorem contribStep_eq (s u : Option ℚ) (acc : ContribAcc) (rc : RawContributor) :
    contribStep s u acc rc =
      match contribRecordOf s u rc with
      | none => acc
      | some cr =>
        { contributors := acc.contributors ++ [cr],
          totalAdditions := acc.totalAdditions + cr.additions,
          totalDeletions := acc.totalDeletions + cr.deletions } := by
  unfold contribStep contribRecordOf
  rcases rc.author with _ | login
  · rfl
  · dsimp only
    split
    · rfl
    · rfl

/-- The contributor loop, characterized: it appends exactly the non-skipped
records in input order and accumulates exactly their additions and
deletions. -/
theorem foldl_contribStep (s u : Option ℚ) (raw : List RawContributor) :
    ∀ acc : ContribAcc,
      raw.foldl (contribStep s u) acc =
        { contributors := acc.contributors ++ raw.filterMap (contribRecordOf s u),
          totalAdditions := acc.totalAdditions +
            ((raw.filterMap (contribRecordOf s u)).map (fun c => c.additions)).sum,
          totalDeletions := acc.totalDeletions +
            ((raw.filterMap (contribRecordOf s u)).map (fun c => c.deletions)).sum } := by
  induction raw with
  | nil => intro acc; simp
  | cons rc rest ih =>
    intro acc
    rw [List.foldl_cons, ih, contribStep_eq]
    rcases h : contribRecordOf s u rc with _ | cr
    · simp [List.filterMap_cons, h]
    · simp [List.filterMap_cons, h]
      omega

/-- Claim C3: for every weekly-stats payload and requested window, a week is
excluded exactly when its 7-day span ends at or before `since` or its start
is after `until`; the collector sums commits/additions/deletions over the
remaining weeks; a contributor whose filtered sums are all zero is omitted
without affecting any other contributor; and the surviving contributors are
sorted descending by commit count. -/
theorem repo_contributor_reduction (s u : Option ℚ) (raw : List RawContributor) :
    (∀ (ws : List Week) (wk : Week), wk ∈ filterWeeks s u ws ↔ wk ∈ ws ∧
      ¬((∃ sv, s = some sv ∧ (wk.w : ℚ) + 7 * 86400 ≤ sv) ∨
        (∃ uv, u = some uv ∧ uv < (wk.w : ℚ)))) ∧
    (collectContributors s u raw).contributors =
      (raw.filterMap (contribRecordOf s u)).mergeSort
        (fun x y => decide (y.commits ≤ x.commits)) ∧
    (∀ rc login, rc.author = some login →
      (contribRecordOf s u rc = none ↔
        ((filterWeeks s u rc.weeks).map (fun wk => wk.c)).sum = 0 ∧
        ((filterWeeks s u rc.weeks).map (fun wk => wk.a)).sum = 0 ∧
        ((filterWeeks s u rc.weeks).map (fun wk => wk.d)).sum = 0)) ∧
    (∀ l1 rc l2, contribRecordOf s u rc = none →
      collectContributors s u (l1 ++ rc :: l2) = collectContributors s u (l1 ++ l2)) ∧
    (∀ rc login cr, rc.author = some login → contribRecordOf s u rc = some cr →
      cr.username = login ∧
      cr.commits = ((filterWeeks s u rc.weeks).map (fun wk => wk.c)).sum ∧
      cr.additions = ((filterWeeks s u rc.weeks).map (fun wk => wk.a)).sum ∧
      cr.deletions = ((filterWeeks s u rc.weeks).map (fun wk => wk.d)).sum) ∧
    List.Pairwise (fun x y => y.commits ≤ x.commits)
      (collectContributors s u raw).contributors := by
  have hchar : (collectContributors s u raw).contributors =
      (raw.filterMap (contribRecordOf s u)).mergeSort
        (fun x y => decide (y.commits ≤ x.commits)) := by
    unfold collectContributors
    rw [foldl_contribStep]
    simp
  refine ⟨?_, hchar, ?_, ?_, ?_, ?_⟩
  · intro ws wk
    have hbool : weekExcluded s u wk = false ↔
        ¬((∃ sv, s = some sv ∧ (wk.w : ℚ) + 7 * 86400 ≤ sv) ∨
          (∃ uv, u = some uv ∧ uv < (wk.w : ℚ))) := by
      rw [← weekExcluded_true_iff]
      cases weekExcluded s u wk <;> simp
    simp only [filterWeeks, List.mem_filter, Bool.not_eq_true']
    exact and_congr Iff.rfl hbool
  · intro rc login ha
    unfold contribRecordOf
    rw [ha]
    dsimp only
    split
    · rename_i hz
      simp
      tauto
    · rename_i hz
      simp
      tauto
  · intro l1 rc l2 hnone
    unfold collectContributors
    rw [foldl_contribStep, foldl_contribStep]
    simp [List.filterMap_append, List.filterMap_cons, hnone]
  · intro rc login cr ha hsome
    unfold contribRecordOf at hsome
    rw [ha] at hsome
    dsimp only at hsome
    rw [ite_eq_iff] at hsome
    rcases hsome with ⟨_, h⟩ | ⟨_, h⟩
    · exact absurd h (by simp)
    · obtain rfl : cr = _ := (Option.some_injective _ h.symm)
      exact ⟨rfl, rfl, rfl, rfl⟩
  · rw [hchar]
    have hs := @List.sorted_mergeSort ContributorStats
      (fun x y => decide (y.commits ≤ x.commits))
      (fun a b c hab hbc => by simp at hab hbc ⊢; omega)
      (fun a b => by simp [Bool.or_eq_true]; omega)
      (raw.filterMap (contribRecordOf s u))
    exact hs.imp (fun h => by simpa using h)

/-- Witness for C3: with no window bounds, the all-zero contributor `zed`
is omitted and does not disturb `alice`'s or `bob`'s totals, and the output
is sorted descending by commits (`bob` with 11 before `alice` with 5). -/
theorem repo_contributor_reduction_witness :
    (collectContributors none none [rawZed, rawAlice, rawBob]).contributors =
      [{ username := "bob", commits := 11, additions := 1, deletions := 2 },
       { username := "alice", commits := 5, additions := 7, deletions := 3 }] ∧
    collectContributors none none ([rawAlice] ++ rawZed :: [rawBob]) =
      collectContributors none none ([rawAlice] ++ [rawBob]) := by
  constructor
  · refine ((repo_contributor_reduction none none [rawZed, rawAlice, rawBob]).2.1).trans ?_
    have h1 : List.filterMap (contribRecordOf none none) [rawZed, rawAlice, rawBob] =
        [{ username := "alice", commits := 5, additions := 7, deletions := 3 },
         { username := "bob", commits := 11, additions := 1, deletions := 2 }] := by decide
    rw [h1]
    simp [List.mergeSort]
  · exact (repo_contributor_reduction none none []).2.2.2.1 [rawAlice] rawZed [rawBob]
      (by decide)

/-- Claim C9 (implicit invariant): every RepoStats produced by the collector
has `total_additions` equal to the sum of `additions` over its contributor
list and `total_deletions` equal to the sum of `deletions` over it. -/
theorem repo_totals_invariant (name : String) (commits : List Commit)
    (langBytes : List (String × ℕ)) (raw : List RawContributor) (prs : List PRData)
    (openIssues : ℕ) (meta : RepoMeta) (s u : Option ℚ) :
    (collectRepoStats name commits langBytes raw prs openIssues meta s u).totalAdditions =
      ((collectRepoStats name commits langBytes raw prs openIssues meta s u).contributors.map
        (fun c => c.additions)).sum ∧
    (collectRepoStats name commits langBytes raw prs openIssues meta s u).totalDeletions =
      ((collectRepoStats name commits langBytes raw prs openIssues meta s u).contributors.map
        (fun c => c.deletions)).sum := by
  unfold collectRepoStats collectContributors
  rw [foldl_contribStep]
  have hperm : ((raw.filterMap (contribRecordOf s u)).mergeSort
      (fun x y => decide (y.commits ≤ x.commits))).Perm
      (raw.filterMap (contribRecordOf s u)) :=
    List.mergeSort_perm _ _
  constructor
  · simpa using ((hperm.map (fun c => c.additions)).sum_eq).symm
  · simpa using ((hperm.map (fun c => c.deletions)).sum_eq).symm

/-- Witness for C9: on the concrete payload the collector reports
`total_additions = 8 = 1 + 7` and `total_deletions = 5 = 2 + 3`, matching
the contributor list. -/
theorem repo_totals_invariant_witness :
    (collectRepoStats "r" [] [] [rawZed, rawAlice, rawBob] [] 0
      { stars := 0, forks := 0, isArchived := false } none none).totalAdditions = 8 := by
  have h := (repo_totals_invariant "r" [] [] [rawZed, rawAlice, rawBob] [] 0
    { stars := 0, forks := 0, isArchived := false } none none).1
  rw [h]
  have h1 : List.filterMap (contribRecordOf none none) [rawZed, rawAlice, rawBob] =
      [{ username := "alice", commits := 5, additions := 7, deletions := 3 },
       { username := "bob", commits := 11, additions := 1, deletions := 2 }] := by decide
  show ((collectContributors none none [rawZed, rawAlice, rawBob]).contributors.map
    (fun c => c.additions)).sum = 8
  unfold collectContributors
  rw [foldl_contribStep]
  simp only [h1]
  simp [List.mergeSort]

/-- A successful username lookup returns a record with that username. -/
theorem findContrib_some_username (u : String) :
    ∀ (l : List ContributorStats) (e : ContributorStats),
      findContrib u l = some e → e.username = u := by
  intro l
  induction l with
  | nil => intro e h; simp [findContrib] at h
  | cons x rest ih =>
    intro e h
    by_cases hx : x.username = u
    · simp [findContrib, hx] at h
      rw [← h]
      exact hx
    · simp [findContrib, hx] at h
      exact ih e h

/-- How one `addContrib` step changes a username lookup. -/
theorem findContrib_addContrib (c : ContributorStats) (u : String) :
    ∀ acc : List ContributorStats,
      findContrib u (addContrib c acc) =
        if c.username = u then
          match findContrib u acc with
          | some e => some ⟨c.username, e.commits + c.commits,
              e.additions + c.additions, e.deletions + c.deletions⟩
          | none => some ⟨c.username, c.commits, c.additions, c.deletions⟩
        else findContrib u acc := by
  intro acc
  induction acc with
  | nil =>
    by_cases h : c.username = u <;> simp [addContrib, findContrib, h]
  | cons e rest ih =>
    by_cases he : e.username = c.username
    · by_cases hu : c.username = u
      · have heu : e.username = u := by rw [he, hu]
        simp [addContrib, findContrib, he, hu, heu]
      · have heu : ¬ e.username = u := by rw [he]; exact hu
        simp [addContrib, findContrib, he, hu, heu]
    · by_cases hu : c.username = u
      · have heu : ¬ e.username = u := by
          intro h
          exact he (by rw [h, hu])
        simp [addContrib, findContrib, he, heu, ih, hu]
      · by_cases heu : e.username = u
        · have hcu : ¬ u = c.username := fun hh => hu hh.symm
          simp [addContrib, findContrib, he, heu, ih, hu, hcu]
        · simp [addContrib, findContrib, he, heu, ih, hu]

/-- The dict build over a flat entry list, characterized: a username lookup
returns the field-wise sums of the matching entries. -/
theorem findContrib_foldl (u : String) :
    ∀ (es acc : List ContributorStats),
      findContrib u (es.foldl (fun a c => addContrib c a) acc) =
        match findContrib u acc with
        | some e => some ⟨u,
            e.commits + ((es.filter (fun c => c.username = u)).map (fun c => c.commits)).sum,
            e.additions + ((es.filter (fun c => c.username = u)).map (fun c => c.additions)).sum,
            e.deletions + ((es.filter (fun c => c.username = u)).map (fun c => c.deletions)).sum⟩
        | none =>
          if (es.filter (fun c => c.username = u)).isEmpty then none
          else some ⟨u,
            ((es.filter (fun c => c.username = u)).map (fun c => c.commits)).sum,
            ((es.filter (fun c => c.username = u)).map (fun c => c.additions)).sum,
            ((es.filter (fun c => c.username = u)).map (fun c => c.deletions)).sum⟩ := by
  intro es
  induction es with
  | nil =>
    intro acc
    cases h : findContrib u acc with
    | none => simp [h]
    | some e =>
      have he := findContrib_some_username u acc e h
      subst he
      simp [h]
  | cons c rest ih =>
    intro acc
    rw [List.foldl_cons, ih (addContrib c acc), findContrib_addContrib]
    by_cases hc : c.username = u
    · cases h : findContrib u acc with
      | some e =>
        have he := findContrib_some_username u acc e h
        simp only [hc, if_true, h, List.filter_cons, List.map_cons, List.sum_cons]
        congr 1
        simp [hc]
        refine ⟨by omega, by omega, by omega⟩
      | none =>
        simp only [hc, if_true, h, List.filter_cons, List.map_cons, List.sum_cons]
        simp [hc]
    · cases h : findContrib u acc with
      | some e =>
        simp only [hc, if_false, h, List.filter_cons]
        simp [hc]
      | none =>
        simp only [hc, if_false, h, List.filter_cons]
        simp [hc]

/-- `mergeContributors` is the dict build over the flattened contributor
entries of all repositories, in order. -/
theorem mergeContributors_eq_foldl (sl : List RepoStats) :
    mergeContributors sl =
      ((sl.map (fun r => r.contributors)).flatten).foldl (fun a c => addContrib c a) [] := by
  rw [List.foldl_flatten, List.foldl_map]
  rfl

/-- The usernames after one `addContrib` step: unchanged when the username
is present, appended otherwise. -/
theorem usernames_addContrib (c : ContributorStats) :
    ∀ acc : List ContributorStats,
      (addContrib c acc).map (fun e => e.username) =
        if acc.any (fun e => e.username = c.username) then acc.map (fun e => e.username)
        else acc.map (fun e => e.username) ++ [c.username] := by
  intro acc
  induction acc with
  | nil => simp [addContrib]
  | cons e rest ih =>
    by_cases he : e.username = c.username
    · simp [addContrib, he]
    · simp only [addContrib, he, if_false, List.map_cons, List.any_cons]
      rw [ih]
      by_cases hr : rest.any (fun e => e.username = c.username)
      · simp [hr, he]
      · simp [hr, he]

/-- The dict build never creates two records with the same username. -/
theorem nodup_foldl_addContrib :
    ∀ (es acc : List ContributorStats),
      ((acc.map (fun e => e.username)).Nodup) →
      (((es.foldl (fun a c => addContrib c a) acc).map (fun e => e.username)).Nodup) := by
  intro es
  induction es with
  | nil => intro acc h; simpa
  | cons c rest ih =>
    intro acc h
    rw [List.foldl_cons]
    apply ih
    rw [usernames_addContrib]
    split
    · exact h
    · rename_i hany
      rw [List.nodup_append]
      refine ⟨h, by simp, ?_⟩
      intro x hx hx2
      simp only [List.mem_singleton] at hx2
      subst hx2
      apply hany
      simp only [List.any_eq_true]
      simp only [List.mem_map] at hx
      obtain ⟨e, he1, he2⟩ := hx
      exact ⟨e, he1, by simp [he2]⟩

/-- Claim C4: the org-level contributor merge produces exactly one record
per distinct username; each record's commits/additions/deletions equal the
sums of the matching per-repo contributor records' fields; and the merge is
commutative and associative in the RepoStats set — a username lookup is
invariant under any permutation of the set. -/
theorem org_contributor_merge (sl : List RepoStats) :
    ((mergeContributors sl).map (fun c => c.username)).Nodup ∧
    (∀ u, findContrib u (mergeContributors sl) =
      (if ((sl.map (fun r => r.contributors)).flatten.filter
            (fun c => c.username = u)).isEmpty then none
       else some ⟨u,
        (((sl.map (fun r => r.contributors)).flatten.filter
            (fun c => c.username = u)).map (fun c => c.commits)).sum,
        (((sl.map (fun r => r.contributors)).flatten.filter
            (fun c => c.username = u)).map (fun c => c.additions)).sum,
        (((sl.map (fun r => r.contributors)).flatten.filter
            (fun c => c.username = u)).map (fun c => c.deletions)).sum⟩)) ∧
    (∀ u, (∃ cr, findContrib u (mergeContributors sl) = some cr) ↔
      ∃ r ∈ sl, ∃ c ∈ r.contributors, c.username = u) ∧
    (∀ sl', sl.Perm sl' → ∀ u,
      findContrib u (mergeContributors sl) = findContrib u (mergeContributors sl')) := by
  have hchar : ∀ (tl : List RepoStats) (u : String),
      findContrib u (mergeContributors tl) =
        (if ((tl.map (fun r => r.contributors)).flatten.filter
              (fun c => c.username = u)).isEmpty then none
         else some ⟨u,
          (((tl.map (fun r => r.contributors)).flatten.filter
              (fun c => c.username = u)).map (fun c => c.commits)).sum,
          (((tl.map (fun r => r.contributors)).flatten.filter
              (fun c => c.username = u)).map (fun c => c.additions)).sum,
          (((tl.map (fun r => r.contributors)).flatten.filter
              (fun c => c.username = u)).map (fun c => c.deletions)).sum⟩) := by
    intro tl u
    rw [mergeContributors_eq_foldl, findContrib_foldl]
    simp [findContrib]
  refine ⟨?_, hchar sl, ?_, ?_⟩
  · rw [mergeContributors_eq_foldl]
    exact nodup_foldl_addContrib _ [] (by simp)
  · intro u
    rw [hchar sl u]
    by_cases he : ((sl.map (fun r => r.contributors)).flatten.filter
        (fun c => c.username = u)).isEmpty
    · rw [List.isEmpty_iff] at he
      simp only [he]
      simp only [List.isEmpty_nil, if_true]
      constructor
      · rintro ⟨cr, hcr⟩
        simp at hcr
      · rintro ⟨r, hr, c, hc, hcu⟩
        have : c ∈ (sl.map (fun r => r.contributors)).flatten.filter
            (fun c => c.username = u) := by
          rw [List.mem_filter]
          refine ⟨?_, by simp [hcu]⟩
          rw [List.mem_flatten]
          exact ⟨r.contributors, List.mem_map_of_mem _ hr, hc⟩
        rw [he] at this
        simp at this
    · simp only [he, if_false]
      constructor
      · intro _
        have hne : (sl.map (fun r => r.contributors)).flatten.filter
            (fun c => c.username = u) ≠ [] := by
          intro hnil
          rw [← List.isEmpty_iff] at hnil
          exact he hnil
        obtain ⟨c, hc⟩ := List.exists_mem_of_ne_nil _ hne
        rw [List.mem_filter] at hc
        obtain ⟨hcmem, hcu⟩ := hc
        rw [List.mem_flatten] at hcmem
        obtain ⟨cs, hcs, hccs⟩ := hcmem
        rw [List.mem_map] at hcs
        obtain ⟨r, hr, hrcs⟩ := hcs
        exact ⟨r, hr, c, by rw [hrcs]; exact hccs, by simpa using hcu⟩
      · intro _
        exact ⟨_, rfl⟩
  · intro sl' hperm u
    rw [hchar sl u, hchar sl' u]
    have hp : ((sl.map (fun r => r.contributors)).flatten.filter
        (fun c => c.username = u)).Perm
        ((sl'.map (fun r => r.contributors)).flatten.filter
          (fun c => c.username = u)) :=
      List.Perm.filter _ (List.Perm.flatten (hperm.map _))
    have hlen := hp.length_eq
    have hie : ((sl.map (fun r => r.contributors)).flatten.filter
        (fun c => c.username = u)).isEmpty =
        ((sl'.map (fun r => r.contributors)).flatten.filter
          (fun c => c.username = u)).isEmpty := by
      rw [Bool.eq_iff_iff, List.isEmpty_iff, List.isEmpty_iff, ← List.length_eq_zero,
        ← List.length_eq_zero, hlen]
    rw [← hie]
    by_cases he : ((sl.map (fun r => r.contributors)).flatten.filter
        (fun c => c.username = u)).isEmpty = true
    · rw [if_pos he, if_pos he]
    · rw [if_neg he, if_neg he]
      rw [(hp.map (fun c => c.commits)).sum_eq, (hp.map (fun c => c.additions)).sum_eq,
        (hp.map (fun c => c.deletions)).sum_eq]

/-- Witness for C4: contributor `alice` with 10 commits in each of two repos
yields one org-level record with `commits = 20`, and swapping the two repos
does not change the lookup. -/
theorem org_contributor_merge_witness :
    findContrib "alice" (mergeContributors
      [plainRepo "r1" 2 [⟨"alice", 10, 0, 0⟩], plainRepo "r2" 2 [⟨"alice", 10, 0, 0⟩]]) =
      some ⟨"alice", 20, 0, 0⟩ ∧
    findContrib "alice" (mergeContributors
      [plainRepo "r1" 2 [⟨"alice", 10, 0, 0⟩], plainRepo "r2" 2 [⟨"alice", 10, 0, 0⟩]]) =
    findContrib "alice" (mergeContributors
      [plainRepo "r2" 2 [⟨"alice", 10, 0, 0⟩], plainRepo "r1" 2 [⟨"alice", 10, 0, 0⟩]]) := by
  constructor
  · refine ((org_contributor_merge
      [plainRepo "r1" 2 [⟨"alice", 10, 0, 0⟩],
       plainRepo "r2" 2 [⟨"alice", 10, 0, 0⟩]]).2.1 "alice").trans ?_
    decide
  · exact (org_contributor_merge
      [plainRepo "r1" 2 [⟨"alice", 10, 0, 0⟩],
       plainRepo "r2" 2 [⟨"alice", 10, 0, 0⟩]]).2.2.2 _ (List.Perm.swap _ _ _) "alice"

/-- Claim C2: a repository whose collection raised contributes its name
exactly once to the failure list (inserted at its position), contributes
zero to every org-level total and list (the report equals the report over
the remaining results, except for the failure list), leaves every other
repository's aggregation unaffected, and `total_repos` equals the number of
successfully collected RepoStats, not the number requested. -/
theorem org_failure_isolation (org sortBy : String) (eb : Bool) (mc : ℕ)
    (l1 l2 : List (String × Option RepoStats)) (n : String) :
    aggregateOrgFromResults org (l1 ++ (n, none) :: l2) sortBy eb mc =
      { aggregateOrgFromResults org (l1 ++ l2) sortBy eb mc with
        failedRepos :=
          l1.filterMap (fun p => match p.2 with | none => some p.1 | some _ => none) ++
            n :: l2.filterMap (fun p => match p.2 with | none => some p.1 | some _ => none) } ∧
    ((∀ p ∈ l1 ++ l2, p.1 ≠ n) →
      (aggregateOrgFromResults org (l1 ++ (n, none) :: l2) sortBy eb mc).failedRepos.count n
        = 1) ∧
    ∀ results : List (String × Option RepoStats),
      (aggregateOrgFromResults org results sortBy eb mc).totalRepos =
        (results.filterMap (fun p => p.2)).length := by
  have hs : (l1 ++ (n, none) :: l2).filterMap (fun p => p.2) =
      (l1 ++ l2).filterMap (fun p => p.2) := by
    simp [List.filterMap_append]
  have hf : (l1 ++ (n, none) :: l2).filterMap
        (fun p => match p.2 with | none => some p.1 | some _ => none) =
      l1.filterMap (fun p => match p.2 with | none => some p.1 | some _ => none) ++
        n :: l2.filterMap (fun p => match p.2 with | none => some p.1 | some _ => none) := by
    simp [List.filterMap_append]
  have hmain : aggregateOrgFromResults org (l1 ++ (n, none) :: l2) sortBy eb mc =
      { aggregateOrgFromResults org (l1 ++ l2) sortBy eb mc with
        failedRepos :=
          l1.filterMap (fun p => match p.2 with | none => some p.1 | some _ => none) ++
            n :: l2.filterMap (fun p => match p.2 with | none => some p.1 | some _ => none) } := by
    simp only [aggregateOrgFromResults, hs, hf]
  refine ⟨hmain, ?_, fun results => rfl⟩
  intro hnone
  rw [hmain]
  simp only []
  rw [List.count_append, List.count_cons_self]
  have hA : ∀ l : List (String × Option RepoStats), (∀ p ∈ l, p.1 ≠ n) →
      (l.filterMap
        (fun p => match p.2 with | none => some p.1 | some _ => none)).count n = 0 := by
    intro l hl
    rw [List.count_eq_zero]
    intro hmem
    rw [List.mem_filterMap] at hmem
    obtain ⟨p, hp, hval⟩ := hmem
    rcases h2 : p.2 with _ | v
    · rw [h2] at hval
      simp at hval
      exact hl p hp hval
    · rw [h2] at hval
      simp at hval
  rw [hA l1 (fun p hp => hnone p (List.mem_append_left _ hp)),
    hA l2 (fun p hp => hnone p (List.mem_append_right _ hp))]

/-- Witness for C2: of three requested repositories the middle one fails;
its name appears exactly once in the failure list. -/
theorem org_failure_isolation_witness :
    (aggregateOrgFromResults "org"
      ([("ok1", some (plainRepo "ok1" 3 []))] ++ ("bad", none) ::
        [("ok2", some (plainRepo "ok2" 4 []))]) "commits" false 0).failedRepos.count "bad"
      = 1 := by
  apply (org_failure_isolation "org" "commits" false 0
    [("ok1", some (plainRepo "ok1" 3 []))] [("ok2", some (plainRepo "ok2" 4 []))] "bad").2.1
  intro p hp
  simp only [List.cons_append, List.nil_append, List.mem_cons, List.not_mem_nil,
    or_false] at hp
  rcases hp with h1 | h1 <;> rw [h1] <;> decide

/-- Claim C10 (implicit): when the aggregator is called with a specific
repository name that also appears in the exclusion set, the exclusion is
applied to the singleton set, so no collection is attempted and the
returned report has `total_repos = 0`, an empty failure list, all numeric
totals zero, and empty language, contributor, repository, and trend lists
(the result does not depend on the collection function at all). -/
theorem single_repo_exclusion (collect : String → Option RepoStats) (org r : String)
    (listed excl : List String) (sortBy : String) (eb : Bool) (mc : ℕ)
    (hmem : r ∈ excl) :
    aggregateOrgReport collect org listed (some r) excl sortBy eb mc =
      { org := org, totalRepos := 0, totalCommits := 0, totalAdditions := 0,
        totalDeletions := 0, totalOpenPrs := 0, totalMergedPrs := 0, totalOpenIssues := 0,
        totalStars := 0, totalForks := 0, archivedRepos := 0, languages := [],
        contributors := [], repos := [], failedRepos := [], prInsights := none,
        contributorTrends := [] } := by
  have hne : excl.isEmpty = false := by
    rcases excl with _ | ⟨x, xs⟩
    · simp at hmem
    · rfl
  have hcontains : excl.contains r = true := by
    simpa [List.elem_iff] using hmem
  have hfilter : [r].filter (fun nm => ! excl.contains nm) = [] := by
    simp [List.filter, hmem]
  unfold aggregateOrgReport
  simp only [hne, Bool.false_eq_true, if_false, hfilter, List.map_nil]
  simp [aggregateOrgFromResults, mergeContributors, orgLanguages, langTotals,
    orgTrendMap, mergePrInsights, List.mergeSort]

/-- Witness for C10: requesting repo `"tool"` while excluding `"tool"`
yields the empty report even for a collection function that would fail
every repository. -/
theorem single_repo_exclusion_witness :
    aggregateOrgReport (fun _ => none) "acme" ["other"] (some "tool") ["tool"]
      "commits" false 0 =
      { org := "acme", totalRepos := 0, totalCommits := 0, totalAdditions := 0,
        totalDeletions := 0, totalOpenPrs := 0, totalMergedPrs := 0, totalOpenIssues := 0,
        totalStars := 0, totalForks := 0, archivedRepos := 0, languages := [],
        contributors := [], repos := [], failedRepos := [], prInsights := none,
        contributorTrends := [] } :=
  single_repo_exclusion (fun _ => none) "acme" "tool" ["other"] ["tool"] "commits" false 0
    (by decide)

/-- `avgHours` is null exactly on an empty sample list. -/
theorem avgHours_eq_none (hs : List ℚ) : avgHours hs = none ↔ hs = [] := by
  unfold avgHours
  split <;> simp_all

/-- A nonempty filterMap comes from a nonempty source. -/
theorem length_pos_of_filterMap_ne_nil {α β : Type} (f : α → Option β) (l : List α)
    (h : l.filterMap f ≠ []) : 0 < l.length := by
  rcases l with _ | ⟨x, xs⟩
  · simp at h
  · simp

/-- Over insights produced per repo, the code's merge-average weight pairs
are `(avg_i, total_analyzed_i) = (avg_i, len(prs_i))`. -/
theorem mergeWeighted_map (repoPrs : List (List PRData)) :
    mergeWeightedOf (repoPrs.map analyzePrInsights) = codeWeightPairsMerge repoPrs := by
  unfold mergeWeightedOf codeWeightPairsMerge
  rw [List.filterMap_map]
  congr 1
  funext prs
  show ((analyzePrInsights prs).avgMergeHours).map (fun h => (h, (analyzePrInsights prs).totalAnalyzed)) = _
  cases h : avgHours (mergeHoursOf prs) <;> simp [analyzePrInsights, h]

/-- Likewise for the close-average weight pairs. -/
theorem closeWeighted_map (repoPrs : List (List PRData)) :
    closeWeightedOf (repoPrs.map analyzePrInsights) = codeWeightPairsClose repoPrs := by
  unfold closeWeightedOf codeWeightPairsClose
  rw [List.filterMap_map]
  congr 1
  funext prs
  show ((analyzePrInsights prs).avgCloseHours).map (fun h => (h, (analyzePrInsights prs).totalAnalyzed)) = _
  cases h : avgHours (closeHoursOf prs) <;> simp [analyzePrInsights, h]

/-- The merged weighted average over per-repo weight pairs is null exactly
when no repo contributed a sample.  `samplesOf` is the per-repo sample list
(merge or close hours); it is empty on an empty PR list. -/
theorem weightedAvg_eq_none_iff (repoPrs : List (List PRData))
    (samplesOf : List PRData → List ℚ) (hnil0 : samplesOf [] = []) :
    weightedAvg (repoPrs.filterMap fun prs =>
        match avgHours (samplesOf prs) with
        | some a => some (a, prs.length)
        | none => none) = none ↔
      ∀ prs ∈ repoPrs, samplesOf prs = [] := by
  unfold weightedAvg
  constructor
  · intro h prs hprs
    by_cases hpos : 0 < ((List.filterMap (fun prs =>
        match avgHours (samplesOf prs) with
        | some a => some (a, prs.length)
        | none => none) repoPrs).map (fun x => x.2)).sum
    · simp only [hpos, if_true] at h
      simp at h
    · by_contra hne2
      obtain ⟨a, ha⟩ : ∃ a, avgHours (samplesOf prs) = some a := by
        cases hA : avgHours (samplesOf prs)
        · rw [avgHours_eq_none] at hA
          exact absurd hA hne2
        · exact ⟨_, rfl⟩
      have hpair : (a, prs.length) ∈ List.filterMap (fun prs =>
          match avgHours (samplesOf prs) with
          | some a => some (a, prs.length)
          | none => none) repoPrs := by
        rw [List.mem_filterMap]
        exact ⟨prs, hprs, by rw [ha]⟩
      have hlen : 0 < prs.length := by
        rcases prs with _ | ⟨p, ps⟩
        · rw [hnil0] at ha
          simp [avgHours] at ha
        · simp
      apply hpos
      have hmem : prs.length ∈ (List.filterMap (fun prs =>
          match avgHours (samplesOf prs) with
          | some a => some (a, prs.length)
          | none => none) repoPrs).map (fun x => x.2) :=
        List.mem_map_of_mem _ hpair
      exact lt_of_lt_of_le hlen (List.single_le_sum (fun x _ => Nat.zero_le x) _ hmem)
  · intro h
    have hnil : List.filterMap (fun prs =>
        match avgHours (samplesOf prs) with
        | some a => some (a, prs.length)
        | none => none) repoPrs = [] := by
      rw [List.filterMap_eq_nil_iff]
      intro prs hprs
      have hx : avgHours (samplesOf prs) = none := (avgHours_eq_none _).2 (h prs hprs)
      rw [hx]
    simp [hnil]

/-- Evaluation: repo A's merge-latency samples are `[10]` (one merged PR,
one still open) and its average is 10, over `total_analyzed = 2`. -/
theorem mergeHours_repoA :
    mergeHoursOf [prMergedTenHours, prStillOpen] = [10] ∧
    avgHours [(10 : ℚ)] = some 10 := by
  constructor
  · norm_num [mergeHoursOf, prMergedTenHours, prStillOpen, List.filterMap_cons]
  · norm_num [avgHours, pyRound1, rhe]

/-- Evaluation: repo B's merge-latency samples are `[20]` with average
20 over `total_analyzed = 1`. -/
theorem mergeHours_repoB :
    mergeHoursOf [prMergedTwentyHours] = [20] ∧
    avgHours [(20 : ℚ)] = some 20 := by
  constructor
  · norm_num [mergeHoursOf, prMergedTwentyHours, List.filterMap_cons]
  · norm_num [avgHours, pyRound1, rhe]

/-- Evaluation: the code's weight pairs for the example are
`[(10, 2), (20, 1)]`. -/
theorem pairsMerge_example :
    codeWeightPairsMerge [[prMergedTenHours, prStillOpen], [prMergedTwentyHours]] =
      [((10 : ℚ), 2), (20, 1)] := by
  simp [codeWeightPairsMerge, List.filterMap_cons, mergeHours_repoA.1, mergeHours_repoA.2,
    mergeHours_repoB.1, mergeHours_repoB.2]

/-- Evaluation: the weighted mean of `[(10, 2), (20, 1)]` is
`round(40/3, 1) = 13.3`. -/
theorem weightedAvg_example :
    weightedAvg [((10 : ℚ), 2), (20, 1)] = some (133/10) := by
  norm_num [weightedAvg, pyRound1, rhe]

/-- Counterexample to claim C1 as stated: with repo A holding two analyzed
PRs of which only one merged (after 10 hours) and repo B holding one PR
merged after 20 hours, the code weighs repo A's average by
`total_analyzed = 2` — not by its count of valid merge-latency samples
(1) — and reports `round((10·2 + 20·1)/3, 1) = 13.3`, while the claim's
sample-count-weighted formula gives `round((10·1 + 20·1)/2, 1) = 15.0`. -/
theorem org_avg_merge_weight_counterexample :
    Option.map (fun pi => pi.avgMergeHours)
      (mergePrInsights ([[prMergedTenHours, prStillOpen], [prMergedTwentyHours]].map
        analyzePrInsights)) = some (some ((133 : ℚ)/10)) ∧
    claimSampleWeightedAvgMerge [[prMergedTenHours, prStillOpen], [prMergedTwentyHours]] =
      some 15 ∧
    ((133 : ℚ)/10) ≠ 15 := by
  refine ⟨?_, ?_, by norm_num⟩
  · unfold mergePrInsights
    rw [show (([[prMergedTenHours, prStillOpen], [prMergedTwentyHours]].map
      analyzePrInsights)).isEmpty = false from rfl]
    simp only [Bool.false_eq_true, if_false, Option.map_some]
    rw [mergeWeighted_map, pairsMerge_example, weightedAvg_example]
    rfl
  · have hcl : ([[prMergedTenHours, prStillOpen], [prMergedTwentyHours]].filterMap fun prs =>
        match avgHours (mergeHoursOf prs) with
        | some a => some (a, (mergeHoursOf prs).length)
        | none => none) = [((10 : ℚ), 1), (20, 1)] := by
      simp [List.filterMap_cons, mergeHours_repoA.1, mergeHours_repoA.2,
        mergeHours_repoB.1, mergeHours_repoB.2]
    unfold claimSampleWeightedAvgMerge
    rw [hcl]
    norm_num [pyRound1, rhe]

/-- Claim C1 (amended): the org-level average merge latency is the
latency-weighted mean `round₁(Σ(avg_i × w_i) / Σ w_i)` where `w_i` is repo
i's `total_analyzed` (its count of analyzed PRs), NOT its count of valid
merge-latency samples (likewise for close latency); the result is null
exactly when no repo contributed a merge (resp. close) sample. -/
theorem org_avg_weighted_by_total_analyzed (repoPrs : List (List PRData))
    (hne : repoPrs ≠ []) :
    Option.map (fun pi => pi.avgMergeHours)
        (mergePrInsights (repoPrs.map analyzePrInsights)) =
      some (weightedAvg (codeWeightPairsMerge repoPrs)) ∧
    Option.map (fun pi => pi.avgCloseHours)
        (mergePrInsights (repoPrs.map analyzePrInsights)) =
      some (weightedAvg (codeWeightPairsClose repoPrs)) ∧
    (weightedAvg (codeWeightPairsMerge repoPrs) = none ↔
      ∀ prs ∈ repoPrs, mergeHoursOf prs = []) ∧
    (weightedAvg (codeWeightPairsClose repoPrs) = none ↔
      ∀ prs ∈ repoPrs, closeHoursOf prs = []) ∧
    (∀ hw : List (ℚ × ℕ), weightedAvg hw =
      if 0 < (hw.map (fun x => x.2)).sum then
        some (pyRound1 ((hw.map (fun x => x.1 * (x.2 : ℚ))).sum /
          ((((hw.map (fun x => x.2)).sum : ℕ)) : ℚ)))
      else none) := by
  have hins : (repoPrs.map analyzePrInsights).isEmpty = false := by
    rcases repoPrs with _ | ⟨x, xs⟩
    · exact absurd rfl hne
    · rfl
  refine ⟨?_, ?_, ?_, ?_, fun hw => by unfold weightedAvg; rfl⟩
  · unfold mergePrInsights
    rw [hins]
    simp only [Bool.false_eq_true, if_false, Option.map_some]
    rw [mergeWeighted_map]
    rfl
  · unfold mergePrInsights
    rw [hins]
    simp only [Bool.false_eq_true, if_false, Option.map_some]
    rw [closeWeighted_map]
    rfl
  · exact weightedAvg_eq_none_iff repoPrs mergeHoursOf rfl
  · exact weightedAvg_eq_none_iff repoPrs closeHoursOf rfl

/-- Witness for amended C1: repo A with `(avg = 10, total_analyzed = 2)`
and repo B with `(avg = 20, total_analyzed = 1)` merge to the org average
`round(40/3, 1) = 13.3`. -/
theorem org_avg_weighted_by_total_analyzed_witness :
    Option.map (fun pi => pi.avgMergeHours)
      (mergePrInsights ([[prMergedTenHours, prStillOpen], [prMergedTwentyHours]].map
        analyzePrInsights)) = some (some ((133 : ℚ)/10)) := by
  have h := (org_avg_weighted_by_total_analyzed
    [[prMergedTenHours, prStillOpen], [prMergedTwentyHours]] (by simp)).1
  rw [h, pairsMerge_example, weightedAvg_example]
